import Mathlib

/-
Verification of the geometric projection and detection evaluation core of
examples/pylot/detection_utils.py, shallowly embedded in Lean 4.

Conventions of the embedding:
- Python floats are modelled as exact rationals; Python 3x3 and 4x4 numpy
  matrices become Mathlib matrices over the rationals.
- The Python function int, which truncates toward zero, is modelled by pyInt.
- Functions that raise exceptions return Except values; functions that can
  return None return Option values.
- The numpy depth arrays are modelled as total functions from integer row and
  column indices to rationals; every claim only ever reads entries that were
  first checked to be inside the image.
-/

namespace Pylot

/-- Point with three components, as used for projected 2D points carrying a
depth, and for 3D vertices. -/
abbrev Pt : Type := ℚ × ℚ × ℚ

/-- Bounding box stored as a flat 4-tuple, unpacked by each consumer with its
own convention. -/
abbrev Box : Type := ℚ × ℚ × ℚ × ℚ

/-- Truncation toward zero, the semantics of the Python builtin int on a
rational number. -/
def pyInt (q : ℚ) : ℤ := Int.tdiv q.num q.den

/-- Error raised by calculate_iou via AssertionError in the source; the
constructor records which argument was malformed, mirroring the two distinct
format strings of lines 367 and 370. -/
inductive IouErr : Type
  | malformedPrediction : Box → IouErr
  | malformedGroundTruth : Box → IouErr
deriving DecidableEq, Repr

/-- Embedding of calculate_iou, detection_utils.py lines 361 to 384. Boxes are
unpacked as (x1, x2, y1, y2). The malformed checks raise, the disjointness
check returns 0, and otherwise the pixel inclusive intersection over union is
returned. -/
def calculate_iou (ground_truth prediction : Box) : Except IouErr ℚ :=
  match ground_truth, prediction with
  | (x1_gt, x2_gt, y1_gt, y2_gt), (x1_p, x2_p, y1_p, y2_p) =>
    if x2_p < x1_p ∨ y2_p < y1_p then
      .error (.malformedPrediction (x1_p, x2_p, y1_p, y2_p))
    else if x2_gt < x1_gt ∨ y2_gt < y1_gt then
      .error (.malformedGroundTruth (x1_gt, x2_gt, y1_gt, y2_gt))
    else if x2_gt < x1_p ∨ x2_p < x1_gt ∨ y2_gt < y1_p ∨ y2_p < y1_gt then
      .ok 0
    else
      let inter_x1 := max x1_gt x1_p
      let inter_x2 := min x2_gt x2_p
      let inter_y1 := max y1_gt y1_p
      let inter_y2 := min y2_gt y2_p
      let inter_area := (inter_x2 - inter_x1 + 1) * (inter_y2 - inter_y1 + 1)
      let gt_area := (x2_gt - x1_gt + 1) * (y2_gt - y1_gt + 1)
      let pred_area := (x2_p - x1_p + 1) * (y2_p - y1_p + 1)
      .ok (inter_area / (gt_area + pred_area - inter_area))

/-- Well formed box in the convention of calculate_iou: the tuple
(x1, x2, y1, y2) satisfies x1 le x2 and y1 le y2. -/
def wfBox (b : Box) : Prop :=
  b.1 ≤ b.2.1 ∧ b.2.2.1 ≤ b.2.2.2

instance (b : Box) : Decidable (wfBox b) := by
  unfold wfBox; infer_instance

/-- Embedding of compute_miou, detection_utils.py lines 51 to 69. The numpy
broadcasting over the two box lists becomes a nested map producing the matrix
as a list of rows. Note the unpack orders of the source: the first list is
split as x11, x12, y11, y12 while the second list is split as
x21, y21, x22, y22. -/
def compute_miou (bboxes1 bboxes2 : List Box) : List (List ℚ) :=
  bboxes1.map (fun b1 =>
    bboxes2.map (fun b2 =>
      match b1, b2 with
      | (x11, x12, y11, y12), (x21, y21, x22, y22) =>
        let xI1 := max x11 x21
        let xI2 := min x12 x22
        let yI1 := max y11 y21
        let yI2 := min y12 y22
        let inter_area := max (xI2 - xI1) 0 * max (yI2 - yI1) 0
        let bboxes1_area := (x12 - x11) * (y12 - y11)
        let bboxes2_area := (x22 - x21) * (y22 - y21)
        let union := bboxes1_area + bboxes2_area - inter_area
        inter_area / (union + 0.0001)))

/-- Inner loop of get_prediction_results lines 406 to 410: iterate over the
ground truths at indices j, j+1, ..., calling calculate_iou with the
prediction as its first argument, and keep the triples whose iou exceeds the
threshold. An AssertionError from calculate_iou propagates. -/
def iousInner (prediction : Box) (i : ℕ) (ground_truths : List Box) (j : ℕ)
    (iou_threshold : ℚ) : Except IouErr (List (ℕ × ℕ × ℚ)) :=
  match ground_truths with
  | [] => .ok []
  | g :: rest =>
    match calculate_iou prediction g with
    | .error e => .error e
    | .ok iou =>
      match iousInner prediction i rest (j + 1) iou_threshold with
      | .error e => .error e
      | .ok tail => .ok (if iou_threshold < iou then (i, j, iou) :: tail else tail)

/-- Outer loop of get_prediction_results lines 406 to 410: iterate over the
predictions at indices i, i+1, ... collecting the kept (i, j, iou) triples in
loop order. -/
def iousOuter (predictions : List Box) (i : ℕ) (ground_truths : List Box)
    (iou_threshold : ℚ) : Except IouErr (List (ℕ × ℕ × ℚ)) :=
  match predictions with
  | [] => .ok []
  | p :: rest =>
    match iousInner p i ground_truths 0 iou_threshold with
    | .error e => .error e
    | .ok here =>
      match iousOuter rest (i + 1) ground_truths iou_threshold with
      | .error e => .error e
      | .ok tail => .ok (here ++ tail)

/-- Greedy matching step of get_prediction_results lines 421 to 425. The state
is (ground_truths_matched, predictions_matched, matched) and an element
(prediction, ground_truth, iou) is accepted when neither index was matched
before. -/
def matchStep (s : Finset ℕ × Finset ℕ × List (ℕ × ℕ × ℚ)) (e : ℕ × ℕ × ℚ) :
    Finset ℕ × Finset ℕ × List (ℕ × ℕ × ℚ) :=
  if e.2.1 ∉ s.1 ∧ e.1 ∉ s.2.1 then
    (insert e.2.1 s.1, insert e.1 s.2.1, s.2.2 ++ [e])
  else s

/-- Embedding of get_prediction_results, detection_utils.py lines 386 to 434.
The Python sorted with key iou and reverse true is a stable descending sort,
modelled by insertionSort with the relation that the left iou is at least the
right iou, which is stable in the same way. -/
def get_prediction_results (ground_truths predictions : List Box)
    (iou_threshold : ℚ) : Except IouErr (ℕ × ℕ × ℕ) :=
  if predictions.length = 0 then
    .ok (0, 0, ground_truths.length)
  else if ground_truths.length = 0 then
    .ok (0, predictions.length, 0)
  else
    match iousOuter predictions 0 ground_truths iou_threshold with
    | .error e => .error e
    | .ok ious =>
      if ious.length = 0 then
        .ok (0, predictions.length, ground_truths.length)
      else
        let sortedIous := ious.insertionSort (fun a b => b.2.2 ≤ a.2.2)
        let res := sortedIous.foldl matchStep (∅, ∅, [])
        .ok (res.2.2.length, predictions.length - res.2.1.card,
             ground_truths.length - res.1.card)

/-- Matrix of size 3x3 over the rationals, modelling a numpy intrinsic
matrix. -/
abbrev Mat3 : Type := Matrix (Fin 3) (Fin 3) ℚ

/-- Matrix of size 4x4 over the rationals, modelling a homogeneous transform
matrix. -/
abbrev Mat4 : Type := Matrix (Fin 4) (Fin 4) ℚ

/-- Homogeneous column vector [[x], [y], [z], [1.0]] built from a 3D position,
as on lines 80 and 136 to 141 of the source. -/
def vec4OfPoint (p : ℚ × ℚ × ℚ) : Fin 4 → ℚ := ![p.1, p.2.1, p.2.2, 1]

/-- First three components of a 4-vector, modelling the numpy slice [:3]. -/
def take3 (v : Fin 4 → ℚ) : Fin 3 → ℚ := ![v 0, v 1, v 2]

/-- Model of numpy.linalg.inv on 4x4 matrices via the adjugate formula; for an
invertible matrix this is the true inverse. The claims only ever invert
invertible extrinsic matrices, matching the spec invariant that transforms are
non degenerate. -/
def inv4 (a : Mat4) : Mat4 := a.det⁻¹ • a.adjugate

/-- Embedding of map_ground_3D_transform_to_2D, detection_utils.py lines 72 to
94. The unused image argument is dropped. Note that the perspective divide on
lines 84 to 87 happens before the depth test on line 89. -/
def map_ground_3D_transform_to_2D (world_transform rgb_transform : Mat4)
    (rgb_intrinsic : Mat3) (rgb_img_size : ℚ × ℚ) (pos : ℚ × ℚ × ℚ) :
    Option (ℚ × ℚ × ℚ) :=
  let extrinsic_mat := world_transform * rgb_transform
  let transformed_3d_pos := (inv4 extrinsic_mat).mulVec (vec4OfPoint pos)
  let pos2d := rgb_intrinsic.mulVec (take3 transformed_3d_pos)
  let p0 := pos2d 0 / pos2d 2
  let p1 := pos2d 1 / pos2d 2
  let p2 := pos2d 2
  let img_width := rgb_img_size.1
  let img_height := rgb_img_size.2
  if 0 < p2 then
    let x_2d := img_width - p0
    let y_2d := img_height - p1
    if 0 ≤ x_2d ∧ x_2d < img_width ∧ 0 ≤ y_2d ∧ y_2d < img_height then
      some (x_2d, y_2d, p2)
    else none
  else none

/-- Model of the external carla Transform applied to a batch of points.
Modelled from the spec, section 4.1: apply_to_points applies the affine
transform, given by a 4x4 homogeneous matrix, to each 3D point in order. The
carla library itself is not part of this repository. -/
def transform_points (m : Mat4) (points : List (ℚ × ℚ × ℚ)) :
    List (ℚ × ℚ × ℚ) :=
  points.map (fun p =>
    let v := m.mulVec (vec4OfPoint p)
    (v 0, v 1, v 2))

/-- Oriented 3D bounding box input of map_ground_bounding_box_to_2D: the pb2
message carries a transform and an extent, lines 108 to 110 of the source. -/
structure BoundingBox3D : Type where
  transform : Mat4
  extent : ℚ × ℚ × ℚ
deriving DecidableEq

/-- Eight bounding box vertices relative to the origin, in the exact sign
order of lines 113 to 122 of the source. -/
def bbox_vertices (ext : ℚ × ℚ × ℚ) : List (ℚ × ℚ × ℚ) :=
  [ (ext.1, ext.2.1, ext.2.2),
    (ext.1, -ext.2.1, ext.2.2),
    (ext.1, ext.2.1, -ext.2.2),
    (ext.1, -ext.2.1, -ext.2.2),
    (-ext.1, ext.2.1, ext.2.2),
    (-ext.1, -ext.2.1, ext.2.2),
    (-ext.1, ext.2.1, -ext.2.2),
    (-ext.1, -ext.2.1, -ext.2.2) ]

/-- Loop body of map_ground_bounding_box_to_2D, lines 135 to 159 of the
source: project one vertex to the image plane and append it to the accumulator
when the depth is positive and the loose OR based bounds test passes. -/
def bbox_project_step (extrinsic_mat : Mat4) (rgb_intrinsic : Mat3)
    (image_width image_height : ℚ) (coords : List Pt) (vertex : ℚ × ℚ × ℚ) :
    List Pt :=
  let transformed_3d_pos := (inv4 extrinsic_mat).mulVec (vec4OfPoint vertex)
  let pos2d := rgb_intrinsic.mulVec (take3 transformed_3d_pos)
  let p0 := pos2d 0 / pos2d 2
  let p1 := pos2d 1 / pos2d 2
  let p2 := pos2d 2
  if 0 < p2 then
    let x_2d := image_width - p0
    let y_2d := image_height - p1
    if (0 ≤ x_2d ∨ 0 ≤ y_2d) ∧ (x_2d < image_width ∨ y_2d < image_height) then
      coords ++ [(x_2d, y_2d, p2)]
    else coords
  else coords

/-- Embedding of map_ground_bounding_box_to_2D, detection_utils.py lines 97 to
161. The unused image and distance_img arguments are dropped; the loop body is
the named definition bbox_project_step. -/
def map_ground_bounding_box_to_2D (world_transform obstacle_transform : Mat4)
    (bounding_box : BoundingBox3D) (rgb_transform : Mat4)
    (rgb_intrinsic : Mat3) (rgb_img_size : ℚ × ℚ) : List Pt :=
  let image_width := rgb_img_size.1
  let image_height := rgb_img_size.2
  let extrinsic_mat := world_transform * rgb_transform
  let bbox0 := bbox_vertices bounding_box.extent
  let bbox1 := transform_points bounding_box.transform bbox0
  let bbox2 := transform_points obstacle_transform bbox1
  bbox2.foldl (bbox_project_step extrinsic_mat rgb_intrinsic image_width image_height) []

/-- Intrinsic matrix part of get_camera_intrinsic_and_transform,
detection_utils.py lines 331 to 359. The Camera construction and the call
camera.get_unreal_transform are external carla calls and are not modelled; the
returned value here is the intrinsic matrix together with the image size. Note
that line 358 of the source uses the literal 90.0 in the tangent, not the
field_of_view parameter. -/
noncomputable def get_camera_intrinsic_and_transform
    (field_of_view width height : ℝ) : Matrix (Fin 3) (Fin 3) ℝ × ℝ × ℝ :=
  (Matrix.of
    ![![width / (2.0 * Real.tan (90.0 * Real.pi / 360.0)), 0, width / 2],
      ![0, width / (2.0 * Real.tan (90.0 * Real.pi / 360.0)), height / 2],
      ![0, 0, 1]],
   width, height)

/-- Definition following the words of the spec, section 4.2, for claim C1:
build_intrinsic derives the focal length from the field of view, namely
width / (2 tan(field_of_view_deg pi / 360)) in both diagonal entries, with
principal point (width / 2, height / 2). -/
noncomputable def build_intrinsic (field_of_view_deg width height : ℝ) :
    Matrix (Fin 3) (Fin 3) ℝ :=
  Matrix.of
    ![![width / (2 * Real.tan (field_of_view_deg * Real.pi / 360)), 0, width / 2],
      ![0, width / (2 * Real.tan (field_of_view_deg * Real.pi / 360)), height / 2],
      ![0, 0, 1]]

/-- Pairs produced by itertools.combinations with r equal 2, in iteration
order: for indices i less than j the pair (l[i], l[j]), ordered by i and then
j. -/
def combinations2 {α : Type} : List α → List (α × α)
  | [] => []
  | x :: xs => xs.map (fun y => (x, y)) ++ combinations2 xs

/-- Loop body of get_bounding_box_from_corners, lines 204 to 218 of the
source. The state is the pair of the maximal distance so far and the best
oriented pair so far; a candidate pair is skipped when one coordinate
difference is at most 0.8, and otherwise replaces the state when its squared
distance is strictly larger. -/
def gbbStep (st : ℚ × Option (Pt × Pt)) (ab : Pt × Pt) :
    ℚ × Option (Pt × Pt) :=
  let a := ab.1
  let b := ab.2
  if |a.1 - b.1| ≤ 0.8 ∨ |a.2.1 - b.2.1| ≤ 0.8 then st
  else
    let distance := (b.1 - a.1) ^ 2 + (b.2.1 - a.2.1) ^ 2
    if st.1 < distance then
      (distance,
       if a.1 < b.1 ∧ a.2.1 < b.2.1 then some (a, b) else some (b, a))
    else st

/-- Embedding of get_bounding_box_from_corners, detection_utils.py lines 195
to 222: fold gbbStep over all pairs of corners, starting from distance 0 and
no pair. -/
def get_bounding_box_from_corners (corners : List Pt) : Option (Pt × Pt) :=
  ((combinations2 corners).foldl gbbStep (0, none)).2

/-- Embedding of get_bounding_box_sampling_points, detection_utils.py lines
225 to 244: the midpoint of the two ends, with the depth taken from the second
end, followed by the six neighbor offsets; the midpoint itself is the first of
the seven sampling points. -/
def get_bounding_box_sampling_points (ends : Pt × Pt) : Pt × List Pt :=
  let a := ends.1
  let b := ends.2
  let middle_point : Pt := ((a.1 + b.1) / 2, (a.2.1 + b.2.1) / 2, b.2.2)
  (middle_point,
   [ middle_point,
     (middle_point.1 + 2, middle_point.2.1, middle_point.2.2),
     (middle_point.1 + 1, middle_point.2.1 + 1, middle_point.2.2),
     (middle_point.1 + 1, middle_point.2.1 - 1, middle_point.2.2),
     (middle_point.1 - 2, middle_point.2.1, middle_point.2.2),
     (middle_point.1 - 1, middle_point.2.1 + 1, middle_point.2.2),
     (middle_point.1 - 1, middle_point.2.1 - 1, middle_point.2.2) ])

/-- Embedding of have_same_depth, detection_utils.py lines 247 to 249: x and y
are truncated to integers and the depth buffer entry at row y and column x,
scaled by 1000, is compared to z within the threshold. -/
def have_same_depth (x y z : ℚ) (depth_array : ℤ → ℤ → ℚ) (threshold : ℚ) :
    Bool :=
  decide (|depth_array (pyInt y) (pyInt x) * 1000 - z| < threshold)

/-- Embedding of inside_image, detection_utils.py lines 252 to 253. -/
def inside_image (x y img_width img_height : ℚ) : Bool :=
  decide (0 ≤ x ∧ 0 ≤ y ∧ x < img_width ∧ y < img_height)

/-- Embedding of select_max_bbox, detection_utils.py lines 256 to 268: the
integer minima and maxima of the truncated coordinates of the two ends,
returned as (xmin, xmax, ymin, ymax). -/
def select_max_bbox (ends : Pt × Pt) : ℤ × ℤ × ℤ × ℤ :=
  let xmin0 := pyInt ends.1.1
  let ymin0 := pyInt ends.1.2.1
  let corner := (pyInt ends.2.1, pyInt ends.2.2.1)
  let xmin := min xmin0 corner.1
  let ymin := min ymin0 corner.2
  let xmax := max xmin0 corner.1
  let ymax := max ymin0 corner.2
  (xmin, xmax, ymin, ymax)

/-- Body of get_2d_bbox_from_3d_box after the projection call,
detection_utils.py lines 279 to 328, as a function of the projected corner
list. The middle point branch, the fallback branch over all seven sampling
points, and the duplicated size filter are embedded line by line. -/
def get_2d_bbox_from_corners (corners : List Pt) (depth_array : ℤ → ℤ → ℚ)
    (rgb_img_size : ℚ × ℚ) (middle_depth_threshold neighbor_threshold : ℚ) :
    Option (ℤ × ℤ × ℤ × ℤ) :=
  if corners.length = 8 then
    match get_bounding_box_from_corners corners with
    | none => none
    | some ends =>
      let middle_point := (get_bounding_box_sampling_points ends).1
      let points := (get_bounding_box_sampling_points ends).2
      if inside_image middle_point.1 middle_point.2.1 rgb_img_size.1 rgb_img_size.2
          && have_same_depth middle_point.1 middle_point.2.1 middle_point.2.2
               depth_array middle_depth_threshold then
        let bb := select_max_bbox ends
        let width := bb.2.1 - bb.1
        let height := bb.2.2.2 - bb.2.2.1
        if (width : ℚ) > rgb_img_size.1 * 0.01 ∧
            (height : ℚ) > rgb_img_size.2 * 0.01 ∧
            ((width * height : ℤ) : ℚ) > rgb_img_size.1 * rgb_img_size.2 * 0.0002 then
          some bb
        else none
      else
        let points_inside_image :=
          points.filter (fun p => inside_image p.1 p.2.1 rgb_img_size.1 rgb_img_size.2)
        let same_depth_points :=
          points_inside_image.map
            (fun p => have_same_depth p.1 p.2.1 p.2.2 depth_array neighbor_threshold)
        if 0 < same_depth_points.length ∧
            (0.4 : ℚ) * (same_depth_points.length : ℚ) ≤ (same_depth_points.count true : ℚ) then
          let bb := select_max_bbox ends
          let width := bb.2.1 - bb.1
          let height := bb.2.2.2 - bb.2.2.1
          if (width : ℚ) > rgb_img_size.1 * 0.01 ∧
              (height : ℚ) > rgb_img_size.2 * 0.01 ∧
              ((width * height : ℤ) : ℚ) > rgb_img_size.1 * rgb_img_size.2 * 0.0002 then
            some bb
          else none
        else none
  else none

/-- Embedding of get_2d_bbox_from_3d_box, detection_utils.py lines 271 to 328:
project the oriented box and run the corner list through the extractor body.
The unused rgb_img argument is dropped. -/
def get_2d_bbox_from_3d_box (depth_array : ℤ → ℤ → ℚ)
    (world_transform obj_transform : Mat4) (bounding_box : BoundingBox3D)
    (rgb_transform : Mat4) (rgb_intrinsic : Mat3) (rgb_img_size : ℚ × ℚ)
    (middle_depth_threshold neighbor_threshold : ℚ) :
    Option (ℤ × ℤ × ℤ × ℤ) :=
  get_2d_bbox_from_corners
    (map_ground_bounding_box_to_2D world_transform obj_transform bounding_box
      rgb_transform rgb_intrinsic rgb_img_size)
    depth_array rgb_img_size middle_depth_threshold neighbor_threshold

/-- Definition following the words of the spec for claim C3: the fallback
filters the 6 neighbor offset samples, excluding the midpoint, to those inside
the image, tests each against the neighbor threshold, and accepts when at
least 40 percent of the in bounds neighbors pass and at least one in bounds
neighbor exists. Used only to compare against the behavior of the source. -/
def spec_fallback_accept (ends : Pt × Pt) (depth_array : ℤ → ℤ → ℚ)
    (img_width img_height neighbor_threshold : ℚ) : Bool :=
  let points := (get_bounding_box_sampling_points ends).2
  let neighbors := points.drop 1
  let inb := neighbors.filter (fun p => inside_image p.1 p.2.1 img_width img_height)
  let passed := inb.map (fun p => have_same_depth p.1 p.2.1 p.2.2 depth_array neighbor_threshold)
  decide (0 < passed.length ∧
    (0.4 : ℚ) * (passed.length : ℚ) ≤ (passed.count true : ℚ))

/-- Concrete corner list used for claims about the box extractor: the extreme
pair is (10, 10) and (30, 40), the six filler points are clustered within 0.8
of (10, 10) in each coordinate so every pair involving them is either skipped
or strictly closer than the extreme pair. -/
def demoCorners : List Pt :=
  [ (10, 10, 0),
    (10.1, 10.1, 0),
    (10.2, 10.2, 0),
    (10.3, 10.3, 0),
    (10.4, 10.4, 0),
    (10.5, 10.5, 0),
    (10.6, 10.6, 0),
    (30, 40, 1000) ]

/-- Concrete depth buffer: value 1.005 (scaled depth 1005) at the three pixels
(20, 25), (22, 25), (21, 26) read as (x, y), and value 2 (scaled depth 2000)
elsewhere. -/
def demoDepth : ℤ → ℤ → ℚ := fun y x =>
  if (y = 25 ∧ x = 20) ∨ (y = 25 ∧ x = 22) ∨ (y = 26 ∧ x = 21) then 1.005 else 2

/-- Inverse of the identity transform is the identity. -/
lemma inv4_one : inv4 1 = 1 := by
  simp [inv4]

/-- Claim C1. The spec asserts that the intrinsic matrix has focal length
width / (2 tan(field_of_view_deg pi / 360)), depending on the field_of_view
argument. The code is wrong: line 358 hardcodes 90.0 inside the tangent, so
the intrinsic matrix is constant in the field of view; at field_of_view 60 and
width 800 the code produces focal length 400 while the documented formula
gives 400 sqrt 3, which differs. -/
theorem claim1_intrinsic_focal_ignores_fov :
    (∀ fov fov2 w h : ℝ, get_camera_intrinsic_and_transform fov w h =
      get_camera_intrinsic_and_transform fov2 w h) ∧
    (get_camera_intrinsic_and_transform 60 800 600).1 0 0 = 400 ∧
    build_intrinsic 60 800 600 0 0 ≠ 400 := by
  refine ⟨fun fov fov2 w h => rfl, ?_, ?_⟩
  · have h : (90 : ℝ) * Real.pi / 360 = Real.pi / 4 := by ring
    norm_num [get_camera_intrinsic_and_transform, h, Real.tan_pi_div_four,
      Matrix.cons_val_zero]
  · have h : (60 : ℝ) * Real.pi / 360 = Real.pi / 6 := by ring
    have h3 : Real.sqrt 3 ≠ 0 := by positivity
    have hval : build_intrinsic 60 800 600 0 0 = 400 * Real.sqrt 3 := by
      norm_num [build_intrinsic, h, Real.tan_pi_div_six, Matrix.cons_val_zero]
      field_simp
      ring
    rw [hval]
    have h1 : (1 : ℝ) < Real.sqrt 3 := by
      rw [show (1:ℝ) = Real.sqrt 1 from (Real.sqrt_one).symm]
      exact Real.sqrt_lt_sqrt (by norm_num) (by norm_num)
    intro hcontra
    have h2 : (400 : ℝ) * 1 < 400 * Real.sqrt 3 :=
      (mul_lt_mul_left (by norm_num : (0:ℝ) < 400)).2 h1
    rw [hcontra] at h2
    norm_num at h2

/-- Claim C2, counterexample. With identity transforms and intrinsic, image
size 800 by 600, and the world point (400e-9, 300e-9, 1e-9), the camera space
depth divisor is 1e-9, which is near zero (below one millionth), yet the
function performs the division and returns the visible point (400, 300, 1e-9)
instead of the claimed None. -/
theorem claim2_counterexample :
    map_ground_3D_transform_to_2D 1 1 1 (800, 600)
      (400/1000000000, 300/1000000000, 1/1000000000) =
      some (400, 300, 1/1000000000) ∧
    (0 < (1 : ℚ)/1000000000 ∧ (1 : ℚ)/1000000000 < 1/1000000) := by
  refine ⟨?_, by norm_num⟩
  norm_num [map_ground_3D_transform_to_2D, inv4_one, Matrix.one_mulVec, vec4OfPoint, take3,
    Matrix.cons_val_zero, Matrix.cons_val_one, Matrix.head_cons, Matrix.cons_val_two,
    Matrix.cons_val_three, Matrix.vecHead, Matrix.vecTail]

/-- Claim C2, amended. The divide is not guarded before it executes: the
function divides by the third component unconditionally, and the only
visibility guard is applied after the divide, namely the strict test that the
camera space depth is positive together with the bounds test. Consequently
every point the function returns has strictly positive camera space depth,
but a near zero positive divisor can still produce a returned point. -/
theorem claim2_returned_depth_positive (world_transform rgb_transform : Mat4)
    (rgb_intrinsic : Mat3) (rgb_img_size : ℚ × ℚ) (pos p : ℚ × ℚ × ℚ)
    (h : map_ground_3D_transform_to_2D world_transform rgb_transform
      rgb_intrinsic rgb_img_size pos = some p) : 0 < p.2.2 := by
  simp only [map_ground_3D_transform_to_2D] at h
  split_ifs at h with h1 h2
  injection h with h3
  subst h3
  exact h1

/-- Claim C2, witness for the amended theorem at a concrete input: with
identity transforms the point (400, 300, 1) is returned and its depth is
positive. -/
theorem claim2_returned_depth_positive_witness : (0 : ℚ) < 1 :=
  claim2_returned_depth_positive 1 1 1 (800, 600) (400, 300, 1) (400, 300, 1)
    (by norm_num [map_ground_3D_transform_to_2D, inv4_one, Matrix.one_mulVec, vec4OfPoint,
      take3, Matrix.cons_val_zero, Matrix.cons_val_one, Matrix.head_cons, Matrix.cons_val_two,
      Matrix.cons_val_three, Matrix.vecHead, Matrix.vecTail])

/-- Claim C6. For every well formed box, the intersection over union of the
box with itself is exactly 1 under the pixel inclusive convention, since the
inclusive area is at least 1 and hence nonzero. -/
theorem claim6_iou_self (b : Box) (hb : wfBox b) : calculate_iou b b = .ok 1 := by
  obtain ⟨b1, b2, b3, b4⟩ := b
  obtain ⟨h1, h2⟩ := hb
  simp only [calculate_iou]
  rw [if_neg (by push_neg; exact ⟨h1, h2⟩), if_neg (by push_neg; exact ⟨h1, h2⟩),
      if_neg (by push_neg; exact ⟨h1, h1, h2, h2⟩)]
  simp only [min_self, max_self]
  have ha : (0 : ℚ) < (b2 - b1 + 1) * (b4 - b3 + 1) := by nlinarith
  rw [show (b2 - b1 + 1) * (b4 - b3 + 1) + (b2 - b1 + 1) * (b4 - b3 + 1) -
        (b2 - b1 + 1) * (b4 - b3 + 1) = (b2 - b1 + 1) * (b4 - b3 + 1) by ring]
  rw [div_self (ne_of_gt ha)]

/-- Claim C6, witness: the box (0, 10, 0, 10) is well formed and its self
intersection over union is 1. -/
theorem claim6_iou_self_witness : calculate_iou (0, 10, 0, 10) (0, 10, 0, 10) = .ok 1 :=
  claim6_iou_self (0, 10, 0, 10) (by norm_num [wfBox])

/-- Claim C8. For every threshold, an empty prediction list yields zero true
positives, zero false positives, and one false negative per ground truth; an
empty ground truth list yields zero true positives, one false positive per
prediction, and zero false negatives. -/
theorem claim8_empty_inputs (ground_truths predictions : List Box) (iou_threshold : ℚ) :
    get_prediction_results ground_truths [] iou_threshold =
      .ok (0, 0, ground_truths.length) ∧
    get_prediction_results [] predictions iou_threshold =
      .ok (0, predictions.length, 0) := by
  constructor
  · simp [get_prediction_results]
  · by_cases hp : predictions.length = 0
    · simp [get_prediction_results, hp]
    · simp [get_prediction_results, hp]

/-- Claim C9. The extractor body returns None for every corner list whose
length is not exactly 8, hence in particular for every list of fewer than 8
projected corners, and it does so by its leading length test, raising no
error. -/
theorem claim9_requires_eight_corners (corners : List Pt) (depth_array : ℤ → ℤ → ℚ)
    (rgb_img_size : ℚ × ℚ) (middle_depth_threshold neighbor_threshold : ℚ)
    (hne : corners.length ≠ 8) :
    get_2d_bbox_from_corners corners depth_array rgb_img_size
      middle_depth_threshold neighbor_threshold = none := by
  simp [get_2d_bbox_from_corners, hne]

/-- Claim C9, witness: a box extractor fed exactly 7 projected corners
produces no result. -/
theorem claim9_requires_eight_corners_witness :
    get_2d_bbox_from_corners
      [(0,0,0), (1,1,1), (2,2,2), (3,3,3), (4,4,4), (5,5,5), (6,6,6)]
      (fun _ _ => 0) (800, 600) 1 10 = none :=
  claim9_requires_eight_corners _ _ _ _ _ (by decide)

/-- Invariant of the corner pair fold: any stored pair has its first point
strictly smaller in x or strictly smaller in y, because stored pairs passed
the 0.8 separation test in both coordinates and are oriented by the
conditional swap. -/
lemma gbb_foldl_first_smaller (pairs : List (Pt × Pt)) :
    ∀ st : ℚ × Option (Pt × Pt),
      (∀ a b : Pt, st.2 = some (a, b) → a.1 < b.1 ∨ a.2.1 < b.2.1) →
      ∀ a b : Pt, (pairs.foldl gbbStep st).2 = some (a, b) →
        a.1 < b.1 ∨ a.2.1 < b.2.1 := by
  induction pairs with
  | nil => intro st hst; exact hst
  | cons p ps ih =>
    intro st hst
    rw [List.foldl_cons]
    apply ih
    intro a b hab
    simp only [gbbStep] at hab
    split_ifs at hab with hskip hdist hor
    · exact hst a b hab
    · have hab2 : (p.1, p.2) = (a, b) := by
        simpa using hab
      have h1 : p.1 = a := congrArg Prod.fst hab2
      have h2 : p.2 = b := congrArg Prod.snd hab2
      subst h1
      subst h2
      exact Or.inl hor.1
    · push_neg at hskip
      have hx : p.1.1 ≠ p.2.1 := by
        intro e
        have he : |p.1.1 - p.2.1| ≤ 0.8 := by
          rw [e, sub_self, abs_zero]; norm_num
        linarith [hskip.1]
      have hy : p.1.2.1 ≠ p.2.2.1 := by
        intro e
        have he : |p.1.2.1 - p.2.2.1| ≤ 0.8 := by
          rw [e, sub_self, abs_zero]; norm_num
        linarith [hskip.2]
      have hab2 : (p.2, p.1) = (a, b) := by
        simpa using hab
      have h1 : p.2 = a := congrArg Prod.fst hab2
      have h2 : p.1 = b := congrArg Prod.snd hab2
      subst h1
      subst h2
      rcases not_and_or.1 hor with hnx | hny
      · exact Or.inl (lt_of_le_of_ne (not_lt.1 hnx) (Ne.symm hx))
      · exact Or.inr (lt_of_le_of_ne (not_lt.1 hny) (Ne.symm hy))
    · exact hst a b hab

/-- Claim C4, counterexample. The claim that the first point of the returned
pair always has both the smaller x and the smaller y is false: with the two
corners (0, 5) and (5, 0) the winning pair is anti ordered, the conditional
swap fires, and the function returns ((5, 0), (0, 5)) whose first point has
the larger x. -/
theorem claim4_counterexample :
    ¬ (∀ (corners : List Pt) (a b : Pt),
        get_bounding_box_from_corners corners = some (a, b) →
        a.1 ≤ b.1 ∧ a.2.1 ≤ b.2.1) := by
  intro hclaim
  have h := hclaim [(0, 5, 0), (5, 0, 0)] (5, 0, 0) (0, 5, 0)
    (by norm_num [get_bounding_box_from_corners, combinations2, gbbStep, abs_le])
  exact absurd h.1 (by norm_num)

/-- Claim C4, amended. The winning pair is returned as (a, b) when a is
strictly smaller in both coordinates and as (b, a) otherwise; since qualifying
pairs differ by more than 0.8 in each coordinate, the returned first point is
strictly smaller in x or strictly smaller in y, but not necessarily in
both. -/
theorem claim4_first_smaller_in_one_coordinate (corners : List Pt) (a b : Pt)
    (h : get_bounding_box_from_corners corners = some (a, b)) :
    a.1 < b.1 ∨ a.2.1 < b.2.1 := by
  exact gbb_foldl_first_smaller (combinations2 corners) (0, none)
    (by intro x y hxy; cases hxy) a b h

/-- Claim C4, witness for the amended theorem at the concrete counterexample
corners: the returned first point (5, 0) is strictly smaller in y. -/
theorem claim4_first_smaller_witness : (5 : ℚ) < 0 ∨ (0 : ℚ) < 5 :=
  claim4_first_smaller_in_one_coordinate [(0, 5, 0), (5, 0, 0)] (5, 0, 0) (0, 5, 0)
    (by norm_num [get_bounding_box_from_corners, combinations2, gbbStep, abs_le])

/-- Claim C5, counterexample. Both boxes are well formed in the convention
(x1, x2, y1, y2) of calculate_iou, yet the pairwise matrix is not transpose
symmetric: compute_miou splits its first argument as x1, x2, y1, y2 and its
second as x1, y1, x2, y2, so the two mixed readings give entry 360000/1000001
one way and 0 the other way. -/
theorem claim5_counterexample :
    compute_miou [(0, 10, 0, 10)] [(2, 3, 8, 9)] = [[360000/1000001]] ∧
    compute_miou [(2, 3, 8, 9)] [(0, 10, 0, 10)] = [[0]] ∧
    (360000/1000001 : ℚ) ≠ 0 ∧
    wfBox (0, 10, 0, 10) ∧ wfBox (2, 3, 8, 9) := by
  refine ⟨by norm_num [compute_miou], by norm_num [compute_miou], by norm_num,
    by norm_num [wfBox], by norm_num [wfBox]⟩

/-- Claim C5, amended. The single pair operation calculate_iou is symmetric
on well formed boxes; the matrix operation compute_miou is not transpose
symmetric in general because of its two different unpack conventions. -/
theorem claim5_calculate_iou_symm (a b : Box) (ha : wfBox a) (hb : wfBox b) :
    calculate_iou a b = calculate_iou b a := by
  obtain ⟨a1, a2, a3, a4⟩ := a
  obtain ⟨b1, b2, b3, b4⟩ := b
  have ha1 : a1 ≤ a2 := ha.1
  have ha2 : a3 ≤ a4 := ha.2
  have hb1 : b1 ≤ b2 := hb.1
  have hb2 : b3 ≤ b4 := hb.2
  have hnota : ¬ (a2 < a1 ∨ a4 < a3) := by push_neg; exact ⟨ha1, ha2⟩
  have hnotb : ¬ (b2 < b1 ∨ b4 < b3) := by push_neg; exact ⟨hb1, hb2⟩
  simp only [calculate_iou]
  rw [if_neg hnotb, if_neg hnota, if_neg hnota, if_neg hnotb]
  by_cases hov : a2 < b1 ∨ b2 < a1 ∨ a4 < b3 ∨ b4 < a3
  · rw [if_pos hov, if_pos (by tauto : b2 < a1 ∨ a2 < b1 ∨ b4 < a3 ∨ a4 < b3)]
  · rw [if_neg hov, if_neg (by tauto : ¬ (b2 < a1 ∨ a2 < b1 ∨ b4 < a3 ∨ a4 < b3))]
    rw [min_comm b2 a2, min_comm b4 a4, max_comm b1 a1, max_comm b3 a3]
    congr 1
    ring

/-- Claim C5, witness for the amended symmetry at concrete well formed
boxes. -/
theorem claim5_calculate_iou_symm_witness :
    calculate_iou (0, 10, 0, 10) (2, 3, 8, 9) = calculate_iou (2, 3, 8, 9) (0, 10, 0, 10) :=
  claim5_calculate_iou_symm (0, 10, 0, 10) (2, 3, 8, 9)
    (by norm_num [wfBox]) (by norm_num [wfBox])

/-- Accumulating fold that appends the optional image of each element equals
the filterMap of the list appended to the accumulator. -/
lemma foldl_append_filterMap {α β : Type} (f : α → Option β)
    (step : List β → α → List β)
    (hstep : ∀ acc x, step acc x = acc ++ (f x).toList) :
    ∀ (l : List α) (acc : List β), l.foldl step acc = acc ++ l.filterMap f := by
  intro l
  induction l with
  | nil => intro acc; simp
  | cons x xs ih =>
    intro acc
    rw [List.foldl_cons, hstep, ih, List.filterMap_cons]
    cases f x <;> simp

/-- Claim C7. The box projector retains a projected corner exactly when its
camera space depth is strictly positive and the loose OR based admission test
holds: x at least 0 or y at least 0, and x below the width or y below the
height. The output list is exactly the filterMap of that admission test over
the 8 transformed vertices. -/
theorem claim7_corner_retention (world_transform obstacle_transform : Mat4)
    (bounding_box : BoundingBox3D) (rgb_transform : Mat4) (rgb_intrinsic : Mat3)
    (w h : ℚ) :
    map_ground_bounding_box_to_2D world_transform obstacle_transform bounding_box
      rgb_transform rgb_intrinsic (w, h) =
    (transform_points obstacle_transform
        (transform_points bounding_box.transform (bbox_vertices bounding_box.extent))).filterMap
      (fun vertex =>
        let pos2d := rgb_intrinsic.mulVec
          (take3 ((inv4 (world_transform * rgb_transform)).mulVec (vec4OfPoint vertex)))
        let x_2d := w - pos2d 0 / pos2d 2
        let y_2d := h - pos2d 1 / pos2d 2
        if 0 < pos2d 2 ∧ ((0 ≤ x_2d ∨ 0 ≤ y_2d) ∧ (x_2d < w ∨ y_2d < h)) then
          some (x_2d, y_2d, pos2d 2)
        else none) := by
  simp only [map_ground_bounding_box_to_2D]
  rw [foldl_append_filterMap _ _ ?_ _ []]
  · rw [List.nil_append]
  · intro acc v
    simp only [bbox_project_step]
    set t := rgb_intrinsic.mulVec
      (take3 ((inv4 (world_transform * rgb_transform)).mulVec (vec4OfPoint v))) with ht
    by_cases h1 : 0 < t 2
    · by_cases h2 : (0 ≤ w - t 0 / t 2 ∨ 0 ≤ h - t 1 / t 2) ∧
        (w - t 0 / t 2 < w ∨ h - t 1 / t 2 < h)
      · rw [if_pos h1, if_pos h2, if_pos (show 0 < t 2 ∧ _ from ⟨h1, h2⟩)]
        simp
      · rw [if_pos h1, if_neg h2, if_neg (show ¬ (0 < t 2 ∧ _) from fun hc => h2 hc.2)]
        simp
    · rw [if_neg h1, if_neg (show ¬ (0 < t 2 ∧ _) from fun hc => h1 hc.1)]
      simp

/-- Claim C3, counterexample. On the demo corners the winning pair is
((10, 10), (30, 40)) and the midpoint (20, 25) fails the strict middle depth
test but passes the looser neighbor test; only two of the six neighbor offsets
pass, so the fallback described by the spec, which excludes the midpoint,
rejects with 2 of 6 below 40 percent, yet the extractor accepts with 3 of 7 at
least 40 percent because the midpoint is part of the tested sample set; the
box (10, 30, 10, 40) is produced. -/
theorem claim3_counterexample :
    get_bounding_box_from_corners demoCorners = some ((10, 10, 0), (30, 40, 1000)) ∧
    spec_fallback_accept ((10, 10, 0), (30, 40, 1000)) demoDepth 800 600 10 = false ∧
    get_2d_bbox_from_corners demoCorners demoDepth (800, 600) 1 10 =
      some (10, 30, 10, 40) := by
  refine ⟨?_, ?_, ?_⟩
  · norm_num [get_bounding_box_from_corners, demoCorners, combinations2, gbbStep, abs_le]
  · norm_num [spec_fallback_accept, get_bounding_box_sampling_points, inside_image,
      have_same_depth, pyInt, abs_lt, demoDepth]
  · norm_num [get_2d_bbox_from_corners, get_bounding_box_from_corners, demoCorners, demoDepth,
      combinations2, gbbStep, abs_le, get_bounding_box_sampling_points, inside_image,
      have_same_depth, pyInt, abs_lt, select_max_bbox]

/-- Claim C3, amended. When the corner list has exactly 8 elements, an
opposite pair is found, and the midpoint test of the middle branch fails, the
extractor decision is exactly: accept when at least one of the seven sampling
points, the midpoint included, lies inside the image and at least 40 percent
of the in bounds sampling points pass the neighbor depth test, subject to the
size filter. -/
theorem claim3_fallback_includes_midpoint
    (corners : List Pt) (depth_array : ℤ → ℤ → ℚ) (w h mt nt : ℚ) (ends : Pt × Pt)
    (h8 : corners.length = 8)
    (hends : get_bounding_box_from_corners corners = some ends)
    (hmid : (inside_image (get_bounding_box_sampling_points ends).1.1
               (get_bounding_box_sampling_points ends).1.2.1 w h
             && have_same_depth (get_bounding_box_sampling_points ends).1.1
                  (get_bounding_box_sampling_points ends).1.2.1
                  (get_bounding_box_sampling_points ends).1.2.2 depth_array mt) = false) :
    get_2d_bbox_from_corners corners depth_array (w, h) mt nt =
      (let same_depth_points :=
        ((get_bounding_box_sampling_points ends).2.filter
            (fun p => inside_image p.1 p.2.1 w h)).map
          (fun p => have_same_depth p.1 p.2.1 p.2.2 depth_array nt)
       let bb := select_max_bbox ends
       if (0 < same_depth_points.length ∧
            (0.4 : ℚ) * (same_depth_points.length : ℚ) ≤ (same_depth_points.count true : ℚ)) ∧
          ((bb.2.1 - bb.1 : ℤ) : ℚ) > w * 0.01 ∧
          ((bb.2.2.2 - bb.2.2.1 : ℤ) : ℚ) > h * 0.01 ∧
          (((bb.2.1 - bb.1) * (bb.2.2.2 - bb.2.2.1) : ℤ) : ℚ) > w * h * 0.0002
       then some bb else none) := by
  simp only [get_2d_bbox_from_corners, h8, if_true, hends, hmid, Bool.false_eq_true,
    if_false]
  split_ifs with h1 h2 h3 <;> first | rfl | tauto

/-- Claim C3, witness for the amended theorem at the demo input: the
hypotheses hold there and the characterization evaluates to the accepted box
(10, 30, 10, 40). -/
theorem claim3_fallback_includes_midpoint_witness :
    get_2d_bbox_from_corners demoCorners demoDepth (800, 600) 1 10 =
      some (10, 30, 10, 40) := by
  refine (claim3_fallback_includes_midpoint demoCorners demoDepth 800 600 1 10
    ((10, 10, 0), (30, 40, 1000))
    (by rfl)
    (by norm_num [get_bounding_box_from_corners, demoCorners, combinations2, gbbStep, abs_le])
    (by norm_num [get_bounding_box_sampling_points, inside_image, have_same_depth,
      pyInt, abs_lt, demoDepth])).trans ?_
  norm_num [get_bounding_box_sampling_points, inside_image, have_same_depth, pyInt,
    abs_lt, demoDepth, select_max_bbox]

/-- Index bounds for the triples produced by the inner iou loop: the
prediction index is the given one and the ground truth index is below the
start index plus the list length. -/
lemma iousInner_mem (prediction : Box) (i : ℕ) (t : ℚ) :
    ∀ (gts : List Box) (j : ℕ) (l : List (ℕ × ℕ × ℚ)),
      iousInner prediction i gts j t = .ok l →
      ∀ e ∈ l, e.1 = i ∧ e.2.1 < j + gts.length := by
  intro gts
  induction gts with
  | nil =>
    intro j l hl e he
    simp only [iousInner] at hl
    injection hl with hl2
    subst hl2
    simp at he
  | cons g rest ih =>
    intro j l hl e he
    simp only [iousInner] at hl
    cases hc : calculate_iou prediction g with
    | error err => rw [hc] at hl; exact Except.noConfusion hl
    | ok v =>
      rw [hc] at hl
      cases hr : iousInner prediction i rest (j + 1) t with
      | error err => rw [hr] at hl; exact Except.noConfusion hl
      | ok tail =>
        rw [hr] at hl
        injection hl with hl2
        subst hl2
        by_cases hv : t < v
        · rw [if_pos hv] at he
          rcases List.mem_cons.1 he with rfl | he2
          · refine ⟨rfl, ?_⟩
            simp only [List.length_cons]
            omega
          · have hrec := ih (j + 1) tail hr e he2
            refine ⟨hrec.1, ?_⟩
            have := hrec.2
            simp only [List.length_cons]
            omega
        · rw [if_neg hv] at he
          have hrec := ih (j + 1) tail hr e he
          refine ⟨hrec.1, ?_⟩
          have := hrec.2
          simp only [List.length_cons]
          omega

/-- Index bounds for the triples produced by the outer iou loop: prediction
indices lie below the start index plus the prediction count and ground truth
indices lie below the ground truth count. -/
lemma iousOuter_mem (gts : List Box) (t : ℚ) :
    ∀ (preds : List Box) (i : ℕ) (l : List (ℕ × ℕ × ℚ)),
      iousOuter preds i gts t = .ok l →
      ∀ e ∈ l, e.1 < i + preds.length ∧ e.2.1 < gts.length := by
  intro preds
  induction preds with
  | nil =>
    intro i l hl e he
    simp only [iousOuter] at hl
    injection hl with hl2
    subst hl2
    simp at he
  | cons p rest ih =>
    intro i l hl e he
    simp only [iousOuter] at hl
    cases hc : iousInner p i gts 0 t with
    | error err => rw [hc] at hl; exact Except.noConfusion hl
    | ok here =>
      rw [hc] at hl
      cases ho : iousOuter rest (i + 1) gts t with
      | error err => rw [ho] at hl; exact Except.noConfusion hl
      | ok tail =>
        rw [ho] at hl
        injection hl with hl2
        subst hl2
        rcases List.mem_append.1 he with he2 | he2
        · have hrec := iousInner_mem p i t gts 0 here hc e he2
          refine ⟨?_, by omega⟩
          simp only [List.length_cons]
          omega
        · have hrec := ih (i + 1) tail ho e he2
          refine ⟨?_, hrec.2⟩
          have := hrec.1
          simp only [List.length_cons]
          omega

/-- Invariant of the greedy matching fold: the two matched index sets have the
same cardinality as the matched list and stay within the index ranges. -/
lemma match_foldl_inv :
    ∀ (l : List (ℕ × ℕ × ℚ)) (np ng : ℕ) (s : Finset ℕ × Finset ℕ × List (ℕ × ℕ × ℚ)),
      (∀ e ∈ l, e.1 < np ∧ e.2.1 < ng) →
      s.1.card = s.2.2.length → s.2.1.card = s.2.2.length →
      s.1 ⊆ Finset.range ng → s.2.1 ⊆ Finset.range np →
      ((l.foldl matchStep s).1.card = (l.foldl matchStep s).2.2.length ∧
       (l.foldl matchStep s).2.1.card = (l.foldl matchStep s).2.2.length ∧
       (l.foldl matchStep s).1 ⊆ Finset.range ng ∧
       (l.foldl matchStep s).2.1 ⊆ Finset.range np) := by
  intro l
  induction l with
  | nil =>
    intro np ng s hl h1 h2 h3 h4
    exact ⟨h1, h2, h3, h4⟩
  | cons e rest ih =>
    intro np ng s hl h1 h2 h3 h4
    rw [List.foldl_cons]
    have he := hl e (List.mem_cons_self e rest)
    have hrest : ∀ x ∈ rest, x.1 < np ∧ x.2.1 < ng :=
      fun x hx => hl x (List.mem_cons_of_mem e hx)
    by_cases hc : e.2.1 ∉ s.1 ∧ e.1 ∉ s.2.1
    · have hstep : matchStep s e =
          (insert e.2.1 s.1, insert e.1 s.2.1, s.2.2 ++ [e]) := by
        simp only [matchStep, if_pos hc]
      rw [hstep]
      apply ih np ng _ hrest
      · simp only [List.length_append, List.length_cons, List.length_nil]
        rw [Finset.card_insert_of_not_mem hc.1, h1]
      · simp only [List.length_append, List.length_cons, List.length_nil]
        rw [Finset.card_insert_of_not_mem hc.2, h2]
      · exact Finset.insert_subset (Finset.mem_range.2 he.2) h3
      · exact Finset.insert_subset (Finset.mem_range.2 he.1) h4
    · have hstep : matchStep s e = s := by
        simp only [matchStep, if_neg hc]
      rw [hstep]
      exact ih np ng s hrest h1 h2 h3 h4

/-- Claim C10. Whenever get_prediction_results returns a triple, the true
positives and false positives sum to the number of predictions, and the true
positives and false negatives sum to the number of ground truths: every
prediction and every ground truth is counted exactly once. -/
theorem claim10_conservation (ground_truths predictions : List Box)
    (iou_threshold : ℚ) (tp fp fn : ℕ)
    (h : get_prediction_results ground_truths predictions iou_threshold =
      .ok (tp, fp, fn)) :
    tp + fp = predictions.length ∧ tp + fn = ground_truths.length := by
  unfold get_prediction_results at h
  by_cases hp : predictions.length = 0
  · rw [if_pos hp] at h
    injection h with h2
    simp only [Prod.mk.injEq] at h2
    obtain ⟨rfl, rfl, rfl⟩ := h2
    omega
  · rw [if_neg hp] at h
    by_cases hg : ground_truths.length = 0
    · rw [if_pos hg] at h
      injection h with h2
      simp only [Prod.mk.injEq] at h2
      obtain ⟨rfl, rfl, rfl⟩ := h2
      omega
    · rw [if_neg hg] at h
      cases ho : iousOuter predictions 0 ground_truths iou_threshold with
      | error err => rw [ho] at h; exact Except.noConfusion h
      | ok ious =>
        rw [ho] at h
        dsimp only at h
        by_cases hi : ious.length = 0
        · rw [if_pos hi] at h
          injection h with h2
          simp only [Prod.mk.injEq] at h2
          obtain ⟨rfl, rfl, rfl⟩ := h2
          omega
        · rw [if_neg hi] at h
          injection h with h2
          simp only [Prod.mk.injEq] at h2
          obtain ⟨h3, h4, h5⟩ := h2
          have hmem : ∀ e ∈ ious.insertionSort (fun a b => b.2.2 ≤ a.2.2),
              e.1 < predictions.length ∧ e.2.1 < ground_truths.length := by
            intro e he
            have hperm := List.perm_insertionSort
              (fun (a b : ℕ × ℕ × ℚ) => b.2.2 ≤ a.2.2) ious
            have he2 : e ∈ ious := hperm.mem_iff.1 he
            have := iousOuter_mem ground_truths iou_threshold predictions 0 ious ho e he2
            exact ⟨by omega, this.2⟩
          have hinv := match_foldl_inv
            (ious.insertionSort (fun a b => b.2.2 ≤ a.2.2))
            predictions.length ground_truths.length (∅, ∅, []) hmem
            (by simp) (by simp) (by simp) (by simp)
          have hcardp : ((ious.insertionSort (fun a b => b.2.2 ≤ a.2.2)).foldl
              matchStep (∅, ∅, [])).2.1.card ≤ predictions.length := by
            have := Finset.card_le_card hinv.2.2.2
            simpa [Finset.card_range] using this
          have hcardg : ((ious.insertionSort (fun a b => b.2.2 ≤ a.2.2)).foldl
              matchStep (∅, ∅, [])).1.card ≤ ground_truths.length := by
            have := Finset.card_le_card hinv.2.2.1
            simpa [Finset.card_range] using this
          have e1 := hinv.1
          have e2 := hinv.2.1
          omega

/-- Claim C10, witness at a concrete input: one ground truth matched by one
identical prediction at threshold one half gives the triple (1, 0, 0), and
both conservation sums hold. -/
theorem claim10_conservation_witness :
    1 + 0 = [((0 : ℚ), 10, 0, 10)].length ∧ 1 + 0 = [((0 : ℚ), 10, 0, 10)].length :=
  claim10_conservation [(0, 10, 0, 10)] [(0, 10, 0, 10)] (1/2) 1 0 0
    (by norm_num [get_prediction_results, iousOuter, iousInner, calculate_iou,
      List.insertionSort, List.orderedInsert, matchStep])

end Pylot
